import Mathlib

/-!
Shallow embedding of the four LADSPA audio filter kernels of this
repository (comb.c, fir.c, iir.c, reson.c).

Audio samples and control-parameter values are modelled as exact
rationals (reals for the Reson kernel, whose coefficient derivation uses
transcendental functions); the C code computes in IEEE floating point,
which this embedding idealizes to exact arithmetic.  Circular history
buffers are `List ℚ`, indexed with `List.getD`/`List.set`; cursor
arithmetic uses `%` exactly as the source does.  Operations whose C
counterpart has undefined behavior on some inputs (the float-to-unsigned
cast of a nonpositive reciprocal, a double `free`) are modelled with
`Option`, `none` standing for undefined behavior.
-/

namespace Ladspa

/-- The C cast `(unsigned int)v` / `(unsigned long)v` applied to a
control value: truncation toward zero.  Faithful for `v > -1`; for
`v ≤ -1` the C conversion is undefined behavior (the claims below only
use it on nonnegative values). -/
def truncNat (q : ℚ) : ℕ := (⌊q⌋).toNat

namespace Comb

/-- `MAX_DELAY` from comb.c. -/
def MAX_DELAY : ℕ := 100

/-- `filter_channel` from comb.c (lines 154-175).  Processes the input
block one sample at a time: the output sample is
`input*(1 - sharpness^delay) + sharpness^delay * history[pos]`, the
output is then written `delay` steps ahead in the circular history
buffer, and the local cursor advances by one modulo `history_length`.
Returns the output block together with the final history buffer and the
final value of the *local* cursor variable (the C function receives the
cursor by value). -/
def filter_channel (delay : ℕ) (sharpness : ℚ) (len : ℕ) :
    List ℚ → List ℚ → ℕ → List ℚ × List ℚ × ℕ
  | [], history, pos => ([], history, pos)
  | x :: rest, history, pos =>
    let out := x * (1 - sharpness ^ delay) + sharpness ^ delay * history.getD pos 0
    let history1 := history.set ((delay + pos) % len) out
    let r := filter_channel delay sharpness len rest history1 ((pos + 1) % len)
    (out :: r.1, r.2)

/-- The state of a comb `filter_type` instance (comb.c lines 51-74):
per-channel history buffers, the shared cursor and the stored buffer
length. -/
structure State where
  history_l : List ℚ
  history_r : List ℚ
  history_position : ℕ
  history_length : ℕ
deriving DecidableEq, Repr

/-- `activate_filter` from comb.c: cursor reset to 0, length set to
`MAX_DELAY`, history buffers zero-allocated (`history_r` only in the
stereo configuration; `[]` stands for the NULL pointer of the mono
one). -/
def activate_filter (stereo : Bool) : State :=
  { history_position := 0
    history_length := MAX_DELAY
    history_l := List.replicate MAX_DELAY 0
    history_r := if stereo then List.replicate MAX_DELAY 0 else [] }

/-- `run_mono_filter` from comb.c (lines 177-186): casts the delay
parameter to an unsigned integer, runs `filter_channel` on the left
channel, and returns.  The history buffer is mutated through its
pointer, so its final value persists in the instance; `history_position`
is passed *by value* and the function never writes it back, so the
stored cursor is unchanged. -/
def run_mono_filter (s : State) (delayP sharpP : ℚ) (input : List ℚ) :
    List ℚ × State :=
  let r := filter_channel (truncNat delayP) sharpP s.history_length input
    s.history_l s.history_position
  (r.1, { s with history_l := r.2.1 })

/-- `run_stereo_filter` from comb.c (lines 188-203): both channels run
`filter_channel` starting from the same stored cursor; as in the mono
case the stored cursor is never written back. -/
def run_stereo_filter (s : State) (delayL sharpL delayR sharpR : ℚ)
    (inL inR : List ℚ) : List ℚ × List ℚ × State :=
  let rL := filter_channel (truncNat delayL) sharpL s.history_length inL
    s.history_l s.history_position
  let rR := filter_channel (truncNat delayR) sharpR s.history_length inR
    s.history_r s.history_position
  (rL.1, rR.1, { s with history_l := rL.2.1, history_r := rR.2.1 })

end Comb

namespace Iir

/-- The state of an IIR `filter_type` instance (iir.c lines 49-62): one
retained output sample per channel. -/
structure State where
  previous_sample_l : ℚ
  previous_sample_r : ℚ
deriving DecidableEq, Repr

/-- `activate_filter` from iir.c (lines 73-78): both retained samples
reset to 0. -/
def activate_filter : State := ⟨0, 0⟩

/-- One channel of `run_filter` from iir.c (lines 115-151):
`output = input*(1 - |coef|) + previous*coef`, the output becoming the
new retained sample. -/
def channel (coef : ℚ) : List ℚ → ℚ → List ℚ × ℚ
  | [], prev => ([], prev)
  | x :: rest, prev =>
    let out := x * (1 - |coef|) + prev * coef
    let r := channel coef rest out
    (out :: r.1, r.2)

/-- `run_mono_filter` from iir.c: the left channel only. -/
def run_mono_filter (s : State) (coefL : ℚ) (input : List ℚ) :
    List ℚ × State :=
  let r := channel coefL input s.previous_sample_l
  (r.1, { s with previous_sample_l := r.2 })

/-- `run_stereo_filter` from iir.c: the per-frame loop updates both
channels; the channels touch disjoint state, so the interleaved C loop
is embedded as one simultaneous recursion over both blocks. -/
def channel2 (coefL coefR : ℚ) :
    List ℚ → List ℚ → ℚ → ℚ → List ℚ × List ℚ × ℚ × ℚ
  | xL :: restL, xR :: restR, prevL, prevR =>
    let outL := xL * (1 - |coefL|) + prevL * coefL
    let outR := xR * (1 - |coefR|) + prevR * coefR
    let r := channel2 coefL coefR restL restR outL outR
    (outL :: r.1, outR :: r.2.1, r.2.2)
  | _, _, prevL, prevR => ([], [], prevL, prevR)

/-- `run_stereo_filter` from iir.c: both channels, each with its own
coefficient and retained sample. -/
def run_stereo_filter (s : State) (coefL coefR : ℚ) (inL inR : List ℚ) :
    List ℚ × List ℚ × State :=
  let r := channel2 coefL coefR inL inR s.previous_sample_l s.previous_sample_r
  (r.1, r.2.1, ⟨r.2.2.1, r.2.2.2⟩)

end Iir

namespace Fir

/-- `MIN_FREQ` from fir.c. -/
def MIN_FREQ : ℕ := 1

/-- `get_sample_shift` from fir.c (lines 77-80):
`(unsigned long)((1 / (2 * freq)) * sample_rate)`.  For `freq ≤ 0` the
C computation is undefined behavior (division by zero yields an
infinity, and converting an infinite or negative value to
`unsigned long` is undefined), modelled as `none`; for `freq > 0` the
cast truncates the nonnegative value, i.e. takes its floor. -/
def get_sample_shift (freq : ℚ) (sample_rate : ℕ) : Option ℕ :=
  if 0 < freq then some (⌊1 / (2 * freq) * (sample_rate : ℚ)⌋).toNat else none

/-- The state of a FIR `filter_type` instance (fir.c lines 51-74). -/
structure State where
  sample_rate : ℕ
  history_l : List ℚ
  history_r : List ℚ
  history_position : ℕ
  history_length : ℕ
deriving DecidableEq, Repr

/-- `activate_filter` from fir.c (lines 94-106): cursor reset to 0,
buffer length `get_sample_shift(MIN_FREQ, sample_rate)` (i.e.
`sample_rate / 2`), history buffers zero-allocated (`history_r` only
when stereo). -/
def activate_filter (stereo : Bool) (sample_rate : ℕ) : State :=
  let len := (get_sample_shift (MIN_FREQ : ℕ) sample_rate).getD 0
  { sample_rate := sample_rate
    history_position := 0
    history_length := len
    history_l := List.replicate len 0
    history_r := if stereo then List.replicate len 0 else [] }

/-- The per-frame loop of `run_filter` from fir.c (lines 187-218), one
channel: the current input is written `shift` steps ahead in the
circular history buffer, then the output is
`input*(1 - wet/2) + history[pos]*(wet/2)` (reading *after* the write,
so a zero shift reads back the sample just written), and the cursor
advances modulo `history_length`. -/
def loop (len shift : ℕ) (wet : ℚ) :
    List ℚ → List ℚ → ℕ → List ℚ × List ℚ × ℕ
  | [], history, pos => ([], history, pos)
  | x :: rest, history, pos =>
    let history1 := history.set ((shift + pos) % len) x
    let out := x * (1 - wet / 2) + history1.getD pos 0 * (wet / 2)
    let r := loop len shift wet rest history1 ((pos + 1) % len)
    (out :: r.1, r.2)

/-- The per-frame loop of `run_filter` from fir.c in the stereo
configuration: both channels use their own shift, wet amount and
history buffer but share the cursor, which advances once per frame;
the stored `history_length` indexes both buffers. -/
def loop2 (len shiftL shiftR : ℕ) (wetL wetR : ℚ) :
    List ℚ → List ℚ → List ℚ → List ℚ → ℕ →
      List ℚ × List ℚ × List ℚ × List ℚ × ℕ
  | xL :: restL, xR :: restR, histL, histR, pos =>
    let histL1 := histL.set ((shiftL + pos) % len) xL
    let histR1 := histR.set ((shiftR + pos) % len) xR
    let outL := xL * (1 - wetL / 2) + histL1.getD pos 0 * (wetL / 2)
    let outR := xR * (1 - wetR / 2) + histR1.getD pos 0 * (wetR / 2)
    let r := loop2 len shiftL shiftR wetL wetR restL restR histL1 histR1
      ((pos + 1) % len)
    (outL :: r.1, outR :: r.2.1, r.2.2)
  | _, _, histL, histR, pos => ([], [], histL, histR, pos)

/-- `run_filter` from fir.c (lines 159-218) in the mono configuration:
the sample shift is computed once per block from the frequency control
value, then the loop runs; the final history buffer and cursor are
stored back in the instance (the cursor is a struct member here, unlike
in comb.c).  `none` models the undefined shift computation for a
nonpositive frequency parameter. -/
def run_mono_filter (s : State) (freqP wetP : ℚ) (input : List ℚ) :
    Option (List ℚ × State) :=
  (get_sample_shift freqP s.sample_rate).map fun shift =>
    let r := loop s.history_length shift wetP input s.history_l
      s.history_position
    (r.1, { s with history_l := r.2.1, history_position := r.2.2 })

/-- `run_filter` from fir.c in the stereo configuration: both shifts are
computed once per block, then the shared loop runs. -/
def run_stereo_filter (s : State) (freqL wetL freqR wetR : ℚ)
    (inL inR : List ℚ) : Option (List ℚ × List ℚ × State) :=
  match get_sample_shift freqL s.sample_rate,
      get_sample_shift freqR s.sample_rate with
  | some shiftL, some shiftR =>
    let r := loop2 s.history_length shiftL shiftR wetL wetR inL inR
      s.history_l s.history_r s.history_position
    some (r.1, r.2.1,
      { s with history_l := r.2.2.1, history_r := r.2.2.2.1,
               history_position := r.2.2.2.2 })
  | _, _ => none

end Fir

namespace Reson

/-- The state of a Reson `filter_type` instance (reson.c lines 50-70):
the two most recent output samples per channel. -/
structure State where
  history_l : ℝ × ℝ
  history_r : ℝ × ℝ
  sample_rate : ℕ

/-- The per-frame loop of `filter_channel` from reson.c (lines
158-166), with the block-constant coefficients as parameters:
`output = gain*input + 2r*cos(angle)*history[0] - r²*history[1]`, the
two-sample history shifting after each frame. -/
noncomputable def loop (gain_factor pole_radius pole_angle : ℝ) :
    List ℝ → ℝ × ℝ → List ℝ × (ℝ × ℝ)
  | [], history => ([], history)
  | x :: rest, history =>
    let out := gain_factor * x + 2 * pole_radius * Real.cos pole_angle *
      history.1 - pole_radius ^ 2 * history.2
    let r := loop gain_factor pole_radius pole_angle rest (out, history.1)
    (out :: r.1, r.2)

/-- `filter_channel` from reson.c (lines 143-167): the pole radius,
pole angle and gain factor are derived once per block from the
frequency and bandwidth control values — with no clamping of the
`acos` argument — and the loop is run.  The C `acos` is embedded as
`Real.arccos`; in exact arithmetic its argument always lies in
`[-1, 1]` (see `reson_acos_argument_in_unit_interval` below), so no
domain case arises in the model. -/
noncomputable def filter_channel (freq bw : ℝ) (history : ℝ × ℝ)
    (input : List ℝ) (sample_rate : ℕ) : List ℝ × (ℝ × ℝ) :=
  let pole_radius := 1 - Real.pi * bw / (sample_rate : ℝ)
  let pole_angle := Real.arccos (2 * pole_radius / (1 + pole_radius ^ 2) *
    Real.cos (2 * Real.pi * freq / (sample_rate : ℝ)))
  let gain_factor := (1 - pole_radius ^ 2) * Real.sin pole_angle
  loop gain_factor pole_radius pole_angle input history

/-- `run_filter`/`run_mono_filter` from reson.c (lines 172-193), mono:
the left channel only. -/
noncomputable def run_mono_filter (s : State) (freqL bwL : ℝ)
    (input : List ℝ) : List ℝ × State :=
  let r := filter_channel freqL bwL s.history_l input s.sample_rate
  (r.1, { s with history_l := r.2 })

/-- `run_filter`/`run_stereo_filter` from reson.c, stereo: both
channels, each with its own parameters and history pair. -/
noncomputable def run_stereo_filter (s : State) (freqL bwL freqR bwR : ℝ)
    (inL inR : List ℝ) : List ℝ × List ℝ × State :=
  let rL := filter_channel freqL bwL s.history_l inL s.sample_rate
  let rR := filter_channel freqR bwR s.history_r inR s.sample_rate
  (rL.1, rR.1, { s with history_l := rL.2, history_r := rR.2 })

end Reson

/-! Allocation model for the lifecycle claims.  The comb, FIR and Reson
kernels share a textually identical `deactivate_filter`
(comb.c 205-211, fir.c 230-236, reson.c 200-206):
`free(history_l); if (history_r) free(history_r);`.  The model tracks
what each history-pointer field holds: never written (`undef`, its value
after `instantiate_filter`'s bare `malloc`), NULL, a live allocation, or
a dangling pointer left by `free`.  `Option` models undefined behavior:
freeing a dangling or indeterminate pointer (or branching on an
indeterminate one) is `none`. -/

namespace Lifecycle

/-- What a history-pointer struct field holds. -/
inductive PtrState
  | undef
  | null
  | live
  | freed
deriving DecidableEq, Repr

/-- `free(p)` on a pointer field: `free(NULL)` is a no-op, freeing a
live allocation leaves the field dangling, freeing a dangling pointer
is a double free (undefined behavior), and freeing an indeterminate
pointer is undefined behavior. -/
def freePtr : PtrState → Option PtrState
  | .null => some .null
  | .live => some .freed
  | .freed => none
  | .undef => none

/-- The two history-pointer fields of a `filter_type` instance. -/
structure AllocState where
  history_l : PtrState
  history_r : PtrState
deriving DecidableEq, Repr

/-- `instantiate_filter`: a bare `malloc` leaves both pointer fields
indeterminate. -/
def instantiate_filter : AllocState := ⟨.undef, .undef⟩

/-- `activate_filter`: `history_l` is (re)allocated; `history_r` is
allocated when stereo and set to NULL otherwise. -/
def activate_filter (stereo : Bool) (_s : AllocState) : AllocState :=
  ⟨.live, if stereo then .live else .null⟩

/-- `deactivate_filter` from comb.c/fir.c/reson.c:
`free(history_l); if (history_r) free(history_r);`.  Branching on an
indeterminate `history_r` is undefined behavior; a dangling (freed)
`history_r` is non-NULL, so the branch is taken and frees it again. -/
def deactivate_filter (s : AllocState) : Option AllocState :=
  match freePtr s.history_l with
  | none => none
  | some l1 =>
    match s.history_r with
    | .undef => none
    | .null => some ⟨l1, .null⟩
    | .live => some ⟨l1, .freed⟩
    | .freed => none

end Lifecycle

end Ladspa

namespace Ladspa

/-! Helper lemmas about circular-buffer reads and writes. -/

theorem list_getD_mem (l : List ℚ) (n : ℕ) (h : n < l.length) (d : ℚ) :
    l.getD n d ∈ l := by
  rw [List.getD_eq_getElem l d h]
  exact l.getElem_mem h

theorem list_getD_set_self (l : List ℚ) (n : ℕ) (a d : ℚ)
    (h : n < l.length) : (l.set n a).getD n d = a := by
  rw [List.getD_eq_getElem (l.set n a) d (by simpa using h)]
  exact List.getElem_set_self (by simpa using h)

theorem list_set_getD_self (l : List ℚ) (n : ℕ) (h : n < l.length) :
    l.set n (l.getD n 0) = l := by
  apply List.ext_getElem
  · simp
  · intro i h1 h2
    rw [List.getElem_set]
    split
    · subst i
      rw [List.getD_eq_getElem l 0 h]
    · rfl

/-- C1: the Comb kernel does NOT persist its history cursor across
process calls.  `filter_channel` receives `history_position` by value
and `run_mono_filter`/`run_stereo_filter` never write the advanced
cursor back into the instance, so after any block (of any length, with
any parameters) the stored cursor is exactly what it was before the
call — not `(cursor + n) mod 100` as the claim states.  The final
conjunct exhibits the divergence concretely: a one-frame block on a
freshly activated mono instance leaves the cursor at 0, while the claim
requires `(0 + 1) mod 100 = 1`. -/
theorem comb_cursor_not_persisted :
    (∀ (s : Comb.State) (dP sP : ℚ) (input : List ℚ),
      (Comb.run_mono_filter s dP sP input).2.history_position
        = s.history_position)
    ∧ (∀ (s : Comb.State) (dL sL dR sR : ℚ) (inL inR : List ℚ),
      (Comb.run_stereo_filter s dL sL dR sR inL inR).2.2.history_position
        = s.history_position)
    ∧ (Comb.run_mono_filter (Comb.activate_filter false) 50 1
        [1]).2.history_position = 0
    ∧ (0 + 1) % 100 ≠ 0 := by
  refine ⟨fun s dP sP input => rfl, fun s dL sL dR sR inL inR => rfl, rfl, ?_⟩
  decide

/-- C2 counterexample: the FIR shift computation is NOT defensively
clamped.  At frequency parameter 0 (an out-of-bound value, the
published lower bound being 20) the C expression
`(unsigned long)((1 / (2 * freq)) * sample_rate)` divides by zero and
converts the resulting infinity to an unsigned integer, which is
undefined behavior — modelled as `none`, i.e. the computation is not
well-defined there, contradicting the claim. -/
theorem fir_shift_freq_zero_undefined :
    Fir.get_sample_shift 0 44100 = none := by
  simp [Fir.get_sample_shift]

/-- C2 amended: the source contains no clamp; the FIR shift computation
`shift = floor(sampleRate / (2·freqParam))` is well-defined exactly for
positive frequency parameters.  For every `freqParam > 0` (in
particular for every value within the published bound `[20, 20000]`)
it yields a defined result; for `freqParam ≤ 0` it is undefined
behavior. -/
theorem fir_shift_defined_of_pos_freq (freq : ℚ) (rate : ℕ)
    (h : 0 < freq) : (Fir.get_sample_shift freq rate).isSome = true := by
  simp [Fir.get_sample_shift, h]

/-- Witness for the amended C2 theorem at `freq = 20`,
`rate = 44100`. -/
theorem fir_shift_defined_of_pos_freq_witness :
    (0 : ℚ) < 20 ∧ (Fir.get_sample_shift 20 44100).isSome = true :=
  ⟨by norm_num, fir_shift_defined_of_pos_freq 20 44100 (by norm_num)⟩

/-- C5 counterexample: `deactivate` is NOT idempotent.  On a mono
instance, the first `deactivate` after `activate` frees the left
history buffer (leaving the pointer dangling); a second consecutive
`deactivate` calls `free` on that dangling pointer — a double free,
undefined behavior (`none`), not a no-op.  Likewise `deactivate` before
any `activate` frees an indeterminate pointer left by `malloc`. -/
theorem deactivate_not_idempotent :
    Lifecycle.deactivate_filter
        (Lifecycle.activate_filter false Lifecycle.instantiate_filter)
      = some ⟨.freed, .null⟩
    ∧ (Lifecycle.deactivate_filter
        (Lifecycle.activate_filter false Lifecycle.instantiate_filter)).bind
        Lifecycle.deactivate_filter = none
    ∧ Lifecycle.deactivate_filter Lifecycle.instantiate_filter = none := by
  decide

/-- C5 amended: `deactivate` succeeds exactly once after each
`activate` (for both the mono and stereo configurations of the Comb,
FIR and Reson kernels, which share this code); a second consecutive
call is a double free and a call before any activation frees an
indeterminate pointer — both undefined behavior, not no-ops. -/
theorem deactivate_exactly_once (stereo : Bool)
    (s : Lifecycle.AllocState) :
    (Lifecycle.deactivate_filter
        (Lifecycle.activate_filter stereo s)).isSome = true
    ∧ (Lifecycle.deactivate_filter
        (Lifecycle.activate_filter stereo s)).bind
        Lifecycle.deactivate_filter = none
    ∧ Lifecycle.deactivate_filter Lifecycle.instantiate_filter = none := by
  cases stereo <;> exact ⟨rfl, rfl, rfl⟩

/-- Witness for the amended C5 theorem at the stereo configuration of a
freshly instantiated filter. -/
theorem deactivate_exactly_once_witness :
    (Lifecycle.deactivate_filter
        (Lifecycle.activate_filter true Lifecycle.instantiate_filter)).isSome
      = true
    ∧ (Lifecycle.deactivate_filter
        (Lifecycle.activate_filter true Lifecycle.instantiate_filter)).bind
        Lifecycle.deactivate_filter = none
    ∧ Lifecycle.deactivate_filter Lifecycle.instantiate_filter = none :=
  deactivate_exactly_once true Lifecycle.instantiate_filter

/-- C6: for the IIR kernel with coefficient `0.5`, starting from the
freshly activated state (`previous_sample = 0`), processing the impulse
block `[1,0,0,0]` writes the output block `[0.5, 0.25, 0.125, 0.0625]`. -/
theorem iir_impulse_response_coef_half :
    (Iir.run_mono_filter Iir.activate_filter (1/2) [1, 0, 0, 0]).1
      = [1/2, 1/4, 1/8, 1/16] := by
  have habs : |(1 : ℚ)/2| = 1/2 := abs_of_nonneg (by norm_num)
  norm_num [Iir.run_mono_filter, Iir.channel, Iir.activate_filter, habs]

/-- With a zero wet amount every output sample of the FIR loop equals
the corresponding input sample, whatever the shift, history contents
and cursor. -/
theorem fir_loop_wet_zero (len shift : ℕ) (input : List ℚ) :
    ∀ (hist : List ℚ) (pos : ℕ),
      (Fir.loop len shift 0 input hist pos).1 = input := by
  induction input with
  | nil => intro hist pos; rfl
  | cons x rest ih =>
    intro hist pos
    simp only [Fir.loop]
    refine List.cons_eq_cons.mpr ⟨?_, ih _ _⟩
    ring

/-- C7: for the FIR kernel with `wet = 0`, for every positive frequency
parameter, every history state and every input block, each output
sample equals the corresponding input sample (the history term is
multiplied by `wet/2 = 0` and the dry gain `1 - wet/2` is 1). -/
theorem fir_wet_zero_identity (s : Fir.State) (freqP : ℚ)
    (input : List ℚ) (hf : 0 < freqP) :
    ∃ s2, Fir.run_mono_filter s freqP 0 input = some (input, s2) := by
  apply Exists.intro
  simp only [Fir.run_mono_filter, Fir.get_sample_shift, if_pos hf,
    Option.map_some']
  rw [fir_loop_wet_zero]

/-- Witness for C7: a concrete activated mono instance at sample rate
8, frequency parameter 440, wet 0, processing the block `[1, 2]`. -/
theorem fir_wet_zero_identity_witness :
    (0 : ℚ) < 440
    ∧ ∃ s2, Fir.run_mono_filter (Fir.activate_filter false 8) 440 0 [1, 2]
        = some ([1, 2], s2) :=
  ⟨by norm_num,
    fir_wet_zero_identity (Fir.activate_filter false 8) 440 [1, 2]
      (by norm_num)⟩

/-- C8: for every kernel (Comb, FIR, IIR, Reson; mono and stereo),
a process call on an empty block (`frameCount = 0`) writes no output
sample and leaves the instance state — history buffers, cursors,
previous-sample scalars — exactly unchanged.  For the FIR kernel the
per-block shift computation still runs before the loop, so its
frequency parameters must be positive (for `freq ≤ 0` that computation
is undefined behavior even with zero frames). -/
theorem process_zero_frames_noop (csM csS : Comb.State) (dL sL dR sR : ℚ)
    (fsM fsS : Fir.State) (fL wL fR wR : ℚ) (hfL : 0 < fL) (hfR : 0 < fR)
    (isM isS : Iir.State) (cL cR : ℚ)
    (rsM rsS : Reson.State) (rfL rbL rfR rbR : ℝ) :
    Comb.run_mono_filter csM dL sL [] = ([], csM)
    ∧ Comb.run_stereo_filter csS dL sL dR sR [] [] = ([], [], csS)
    ∧ Fir.run_mono_filter fsM fL wL [] = some ([], fsM)
    ∧ Fir.run_stereo_filter fsS fL wL fR wR [] [] = some ([], [], fsS)
    ∧ Iir.run_mono_filter isM cL [] = ([], isM)
    ∧ Iir.run_stereo_filter isS cL cR [] [] = ([], [], isS)
    ∧ Reson.run_mono_filter rsM rfL rbL [] = ([], rsM)
    ∧ Reson.run_stereo_filter rsS rfL rbL rfR rbR [] [] = ([], [], rsS) := by
  refine ⟨rfl, rfl, ?_, ?_, rfl, rfl, rfl, rfl⟩
  · simp only [Fir.run_mono_filter, Fir.get_sample_shift, if_pos hfL,
      Option.map_some', Fir.loop]
  · simp only [Fir.run_stereo_filter, Fir.get_sample_shift, if_pos hfL,
      if_pos hfR, Fir.loop2]

/-- Witness for C8 at concrete instances and parameters. -/
theorem process_zero_frames_noop_witness :
    (0 : ℚ) < 100 ∧ (0 : ℚ) < 200
    ∧ (Comb.run_mono_filter (Comb.activate_filter false) 50 1 []
        = ([], Comb.activate_filter false)
      ∧ Comb.run_stereo_filter (Comb.activate_filter true) 50 1 60 1 [] []
        = ([], [], Comb.activate_filter true)
      ∧ Fir.run_mono_filter (Fir.activate_filter false 8) 100 0 []
        = some ([], Fir.activate_filter false 8)
      ∧ Fir.run_stereo_filter (Fir.activate_filter true 8) 100 0 200 0 [] []
        = some ([], [], Fir.activate_filter true 8)
      ∧ Iir.run_mono_filter Iir.activate_filter (1/2) [] = ([], Iir.activate_filter)
      ∧ Iir.run_stereo_filter Iir.activate_filter (1/2) (1/2) [] []
        = ([], [], Iir.activate_filter)
      ∧ Reson.run_mono_filter ⟨(0, 0), (0, 0), 8⟩ 440 1 []
        = ([], ⟨(0, 0), (0, 0), 8⟩)
      ∧ Reson.run_stereo_filter ⟨(0, 0), (0, 0), 8⟩ 440 1 550 1 [] []
        = ([], [], ⟨(0, 0), (0, 0), 8⟩)) := by
  refine ⟨by norm_num, by norm_num, ?_⟩
  exact process_zero_frames_noop (Comb.activate_filter false)
    (Comb.activate_filter true) 50 1 60 1
    (Fir.activate_filter false 8) (Fir.activate_filter true 8)
    100 0 200 0 (by norm_num) (by norm_num)
    Iir.activate_filter Iir.activate_filter (1/2) (1/2)
    ⟨(0, 0), (0, 0), 8⟩ ⟨(0, 0), (0, 0), 8⟩ 440 1 550 1

/-- With a zero tap offset the FIR loop writes the current input sample
into the very slot it reads back in the same frame, so every output
sample equals the corresponding input sample, for every wet amount. -/
theorem fir_loop_shift_zero (len : ℕ) (wet : ℚ) (input : List ℚ) :
    ∀ (hist : List ℚ) (pos : ℕ), hist.length = len → pos < len →
      (Fir.loop len 0 wet input hist pos).1 = input := by
  induction input with
  | nil => intro hist pos _ _; rfl
  | cons x rest ih =>
    intro hist pos hlen hpos
    have hlen0 : 0 < len := lt_of_le_of_lt (Nat.zero_le pos) hpos
    have hmod : (0 + pos) % len = pos := by
      rw [Nat.zero_add, Nat.mod_eq_of_lt hpos]
    simp only [Fir.loop]
    refine List.cons_eq_cons.mpr ⟨?_, ?_⟩
    · rw [hmod, list_getD_set_self hist pos x 0 (by rw [hlen]; exact hpos)]
      ring
    · exact ih _ _ (by rw [List.length_set, hlen]) (Nat.mod_lt _ hlen0)

/-- C9: whenever the FIR tap offset is zero — which holds for every
frequency parameter above half the sample rate, since
`floor((1/(2·freq))·sampleRate)` is then 0 — each frame writes the
current input sample into the history slot that is immediately read
back, so every output sample equals
`input·(1 − wet/2) + input·(wet/2) = input`: the filter degenerates to
a pass-through regardless of the wet parameter. -/
theorem fir_shift_zero_passthrough (s : Fir.State) (freqP wetP : ℚ)
    (input : List ℚ)
    (hf : (s.sample_rate : ℚ) / 2 < freqP)
    (hlen : s.history_l.length = s.history_length)
    (hpos : s.history_position < s.history_length) :
    Fir.get_sample_shift freqP s.sample_rate = some 0
    ∧ ∃ s2, Fir.run_mono_filter s freqP wetP input = some (input, s2) := by
  have hf0 : 0 < freqP := by
    have : (0:ℚ) ≤ (s.sample_rate : ℚ) / 2 := by positivity
    linarith
  have hshift : Fir.get_sample_shift freqP s.sample_rate = some 0 := by
    rw [Fir.get_sample_shift, if_pos hf0]
    have h1 : (0:ℚ) ≤ 1 / (2 * freqP) * (s.sample_rate : ℚ) := by positivity
    have h2 : 1 / (2 * freqP) * (s.sample_rate : ℚ) < 1 := by
      rw [div_mul_eq_mul_div, one_mul, div_lt_one (by positivity)]
      linarith
    rw [Int.floor_eq_zero_iff.mpr (Set.mem_Ico.mpr ⟨h1, h2⟩)]
    rfl
  refine ⟨hshift, ?_⟩
  apply Exists.intro
  simp only [Fir.run_mono_filter, hshift, Option.map_some']
  rw [fir_loop_shift_zero s.history_length wetP input s.history_l
    s.history_position hlen hpos]

/-- Witness for C9: activated mono FIR instance at sample rate 8
(history length 4), frequency parameter 5 > 8/2, wet 1/3, input block
`[3, 7]`. -/
theorem fir_shift_zero_passthrough_witness :
    (((Fir.activate_filter false 8).sample_rate : ℚ) / 2 < 5
      ∧ (Fir.activate_filter false 8).history_l.length
          = (Fir.activate_filter false 8).history_length
      ∧ (Fir.activate_filter false 8).history_position
          < (Fir.activate_filter false 8).history_length)
    ∧ (Fir.get_sample_shift 5 (Fir.activate_filter false 8).sample_rate
        = some 0
      ∧ ∃ s2, Fir.run_mono_filter (Fir.activate_filter false 8) 5 (1/3)
          [3, 7] = some ([3, 7], s2)) := by
  have h1 : ((Fir.activate_filter false 8).sample_rate : ℚ) / 2 < 5 := by
    norm_num [Fir.activate_filter]
  have h2 : (Fir.activate_filter false 8).history_l.length
      = (Fir.activate_filter false 8).history_length := by
    simp [Fir.activate_filter]
  have h3 : (Fir.activate_filter false 8).history_position
      < (Fir.activate_filter false 8).history_length := by
    norm_num [Fir.activate_filter, Fir.get_sample_shift, Fir.MIN_FREQ]
  exact ⟨⟨h1, h2, h3⟩,
    fir_shift_zero_passthrough (Fir.activate_filter false 8) 5 (1/3) [3, 7]
      h1 h2 h3⟩

/-- With delay 0 the comb loop's direct-path coefficient
`1 - sharpness^0` vanishes: each output sample is just the history slot
at the current cursor, and writing it back into the same slot leaves
the buffer unchanged. -/
theorem comb_channel_delay_zero (sh : ℚ) (len : ℕ) (input : List ℚ) :
    ∀ (hist : List ℚ) (pos : ℕ), hist.length = len → pos < len →
      (Comb.filter_channel 0 sh len input hist pos).1
        = (List.range input.length).map
            (fun i => hist.getD ((pos + i) % len) 0)
      ∧ (Comb.filter_channel 0 sh len input hist pos).2.1 = hist := by
  induction input with
  | nil => intro hist pos _ _; exact ⟨rfl, rfl⟩
  | cons x rest ih =>
    intro hist pos hlen hpos
    have hlen0 : 0 < len := lt_of_le_of_lt (Nat.zero_le pos) hpos
    have hout : x * (1 - sh ^ 0) + sh ^ 0 * hist.getD pos 0
        = hist.getD pos 0 := by
      rw [pow_zero]; ring
    have hset : hist.set ((0 + pos) % len)
        (x * (1 - sh ^ 0) + sh ^ 0 * hist.getD pos 0) = hist := by
      rw [Nat.zero_add, Nat.mod_eq_of_lt hpos, hout,
        list_set_getD_self hist pos (hlen ▸ hpos)]
    obtain ⟨ih1, ih2⟩ := ih hist ((pos + 1) % len) hlen (Nat.mod_lt _ hlen0)
    simp only [Comb.filter_channel, hset, List.length_cons]
    constructor
    · rw [ih1, hout, List.range_succ_eq_map, List.map_cons, List.map_map]
      refine List.cons_eq_cons.mpr ⟨?_, ?_⟩
      · rw [Nat.add_zero, Nat.mod_eq_of_lt hpos]
      · apply List.map_congr_left
        intro i _
        simp only [Function.comp_apply, Nat.succ_eq_add_one, Nat.mod_add_mod]
        rw [show pos + 1 + i = pos + (i + 1) from by omega]
    · exact ih2

/-- C4 counterexample: the Comb kernel does NOT clamp a delay parameter
below 1.  On a freshly activated mono instance with sharpness 1/2 and
input block `[1]`, a delay parameter of 1/2 truncates to delay 0 and
produces the output `[0]` (the history slot at the cursor), whereas
delay 1 produces `[1/2]` — the two calls are observably different,
contradicting the claimed clamping. -/
theorem comb_delay_below_one_not_clamped :
    (Comb.run_mono_filter (Comb.activate_filter false) (1/2) (1/2) [1]).1
      ≠ (Comb.run_mono_filter (Comb.activate_filter false) 1 (1/2) [1]).1 := by
  have h0 : truncNat (1/2) = 0 := by norm_num [truncNat]
  have h1 : truncNat 1 = 1 := by norm_num [truncNat]
  simp only [Comb.run_mono_filter, Comb.activate_filter, Comb.MAX_DELAY,
    Comb.filter_channel, h0, h1]
  norm_num

/-- C4 amended: a delay parameter with `0 ≤ delayParam < 1` is NOT
clamped to 1; it truncates to delay 0, for which each output sample
equals the history slot at the current cursor (`history[(pos+i) mod
len]`), the slot being rewritten with its own value — so the history
buffer and the stored cursor are left exactly unchanged.  This differs
from the behavior at delay 1 (see the counterexample). -/
theorem comb_delay_below_one_behaves_as_delay_zero (s : Comb.State)
    (dP sP : ℚ) (input : List ℚ)
    (hd0 : 0 ≤ dP) (hd1 : dP < 1)
    (hlen : s.history_l.length = s.history_length)
    (hpos : s.history_position < s.history_length) :
    (Comb.run_mono_filter s dP sP input).1
      = (List.range input.length).map
          (fun i => s.history_l.getD
            ((s.history_position + i) % s.history_length) 0)
    ∧ (Comb.run_mono_filter s dP sP input).2 = s := by
  have htr : truncNat dP = 0 := by
    rw [truncNat, Int.floor_eq_zero_iff.mpr (Set.mem_Ico.mpr ⟨hd0, hd1⟩)]
    rfl
  obtain ⟨h1, h2⟩ := comb_channel_delay_zero sP s.history_length input
    s.history_l s.history_position hlen hpos
  constructor
  · simp only [Comb.run_mono_filter, htr]
    exact h1
  · simp only [Comb.run_mono_filter, htr, h2]

/-- Witness for the amended C4 theorem: freshly activated mono
instance, delay parameter 1/2, sharpness 3/4, input block `[5, 7]`. -/
theorem comb_delay_below_one_behaves_as_delay_zero_witness :
    ((0:ℚ) ≤ 1/2 ∧ (1/2 : ℚ) < 1
      ∧ (Comb.activate_filter false).history_l.length
          = (Comb.activate_filter false).history_length
      ∧ (Comb.activate_filter false).history_position
          < (Comb.activate_filter false).history_length)
    ∧ ((Comb.run_mono_filter (Comb.activate_filter false) (1/2) (3/4)
          [5, 7]).1
        = (List.range ([5, 7] : List ℚ).length).map
            (fun i => (Comb.activate_filter false).history_l.getD
              (((Comb.activate_filter false).history_position + i)
                % (Comb.activate_filter false).history_length) 0)
      ∧ (Comb.run_mono_filter (Comb.activate_filter false) (1/2) (3/4)
          [5, 7]).2 = Comb.activate_filter false) := by
  have h1 : (0:ℚ) ≤ 1/2 := by norm_num
  have h2 : (1/2 : ℚ) < 1 := by norm_num
  have h3 : (Comb.activate_filter false).history_l.length
      = (Comb.activate_filter false).history_length := by
    simp [Comb.activate_filter]
  have h4 : (Comb.activate_filter false).history_position
      < (Comb.activate_filter false).history_length := by
    norm_num [Comb.activate_filter, Comb.MAX_DELAY]
  exact ⟨⟨h1, h2, h3, h4⟩,
    comb_delay_below_one_behaves_as_delay_zero (Comb.activate_filter false)
      (1/2) (3/4) [5, 7] h1 h2 h3 h4⟩

/-- If the feedback gain `sharpness^delay` lies in `[0, 1]`, then each
comb output sample is a convex combination of one input sample and one
history sample, so a magnitude bound `M` on the input block and every
history slot is preserved by the loop: every output sample and every
slot of the final history buffer stays within `M`. -/
theorem comb_loop_bounded (delay : ℕ) (sh : ℚ) (len : ℕ) (M : ℚ)
    (hg0 : 0 ≤ sh ^ delay) (hg1 : sh ^ delay ≤ 1) (input : List ℚ) :
    ∀ (hist : List ℚ) (pos : ℕ), hist.length = len → pos < len →
      (∀ x ∈ input, |x| ≤ M) → (∀ y ∈ hist, |y| ≤ M) →
      (∀ z ∈ (Comb.filter_channel delay sh len input hist pos).1, |z| ≤ M)
      ∧ (∀ y ∈ (Comb.filter_channel delay sh len input hist pos).2.1,
          |y| ≤ M) := by
  induction input with
  | nil =>
    intro hist pos _ _ _ hh
    refine ⟨?_, hh⟩
    intro z hz
    cases hz
  | cons x rest ih =>
    intro hist pos hlen hpos hin hh
    have hlen0 : 0 < len := lt_of_le_of_lt (Nat.zero_le pos) hpos
    have hx : |x| ≤ M := hin x (List.mem_cons_self x rest)
    have hhp : |hist.getD pos 0| ≤ M :=
      hh _ (list_getD_mem hist pos (hlen ▸ hpos) 0)
    have hout : |x * (1 - sh ^ delay) + sh ^ delay * hist.getD pos 0| ≤ M := by
      calc |x * (1 - sh ^ delay) + sh ^ delay * hist.getD pos 0|
          ≤ |x * (1 - sh ^ delay)| + |sh ^ delay * hist.getD pos 0| :=
            abs_add _ _
        _ = |x| * (1 - sh ^ delay) + sh ^ delay * |hist.getD pos 0| := by
            rw [abs_mul, abs_mul,
              abs_of_nonneg (by linarith : (0:ℚ) ≤ 1 - sh ^ delay),
              abs_of_nonneg hg0]
        _ ≤ M * (1 - sh ^ delay) + sh ^ delay * M := by
            refine add_le_add ?_ ?_
            · exact mul_le_mul_of_nonneg_right hx (by linarith)
            · exact mul_le_mul_of_nonneg_left hhp hg0
        _ = M := by ring
    have hnew : ∀ y ∈ hist.set ((delay + pos) % len)
        (x * (1 - sh ^ delay) + sh ^ delay * hist.getD pos 0), |y| ≤ M := by
      intro y hy
      rcases List.mem_or_eq_of_mem_set hy with h | h
      · exact hh y h
      · rw [h]; exact hout
    obtain ⟨ho, hst⟩ := ih
      (hist.set ((delay + pos) % len)
        (x * (1 - sh ^ delay) + sh ^ delay * hist.getD pos 0))
      ((pos + 1) % len)
      (by rw [List.length_set, hlen]) (Nat.mod_lt _ hlen0)
      (fun z hz => hin z (List.mem_cons_of_mem x hz)) hnew
    refine ⟨?_, ?_⟩
    · intro z hz
      simp only [Comb.filter_channel] at hz
      rcases List.mem_cons.mp hz with h | h
      · rw [h]; exact hout
      · exact ho z h
    · intro y hy
      simp only [Comb.filter_channel] at hy
      exact hst y hy

/-- C10: for sharpness in `[1/2, 1]` and integer delay in `[1, 100]`
on the 100-slot buffer, the feedback gain `sharpness^delay` lies in
`(0, 1]`, each output sample is a convex combination of one input
sample and one history sample, and consequently a magnitude bound `M`
holding for every input sample and every history slot before the call
also holds for every output sample and every history slot after it,
for every block length. -/
theorem comb_bounded_invariant (delay : ℕ) (sh M : ℚ)
    (input hist : List ℚ) (pos : ℕ)
    (hs1 : 1/2 ≤ sh) (hs2 : sh ≤ 1) (_hd1 : 1 ≤ delay) (_hd2 : delay ≤ 100)
    (hlen : hist.length = 100) (hpos : pos < 100)
    (hin : ∀ x ∈ input, |x| ≤ M) (hh : ∀ y ∈ hist, |y| ≤ M) :
    (0 < sh ^ delay ∧ sh ^ delay ≤ 1)
    ∧ (∀ z ∈ (Comb.filter_channel delay sh 100 input hist pos).1, |z| ≤ M)
    ∧ (∀ y ∈ (Comb.filter_channel delay sh 100 input hist pos).2.1,
        |y| ≤ M) := by
  have hg0 : 0 < sh ^ delay := pow_pos (by linarith) delay
  have hg1 : sh ^ delay ≤ 1 := pow_le_one₀ (by linarith) hs2
  obtain ⟨h1, h2⟩ := comb_loop_bounded delay sh 100 M (le_of_lt hg0) hg1
    input hist pos hlen hpos hin hh
  exact ⟨⟨hg0, hg1⟩, h1, h2⟩

/-- Witness for C10: delay 1, sharpness 1/2, bound `M = 1`, cursor 0,
zeroed 100-slot history, input block `[1, -1/2]`. -/
theorem comb_bounded_invariant_witness :
    ((1:ℚ)/2 ≤ 1/2 ∧ (1:ℚ)/2 ≤ 1 ∧ 1 ≤ 1 ∧ (1:ℕ) ≤ 100
      ∧ (List.replicate 100 (0:ℚ)).length = 100 ∧ (0:ℕ) < 100
      ∧ (∀ x ∈ [(1:ℚ), -1/2], |x| ≤ 1)
      ∧ (∀ y ∈ List.replicate 100 (0:ℚ), |y| ≤ 1))
    ∧ ((0 < (1/2 : ℚ) ^ 1 ∧ (1/2 : ℚ) ^ 1 ≤ 1)
      ∧ (∀ z ∈ (Comb.filter_channel 1 (1/2) 100 [(1:ℚ), -1/2]
          (List.replicate 100 0) 0).1, |z| ≤ 1)
      ∧ (∀ y ∈ (Comb.filter_channel 1 (1/2) 100 [(1:ℚ), -1/2]
          (List.replicate 100 0) 0).2.1, |y| ≤ 1)) := by
  have hin : ∀ x ∈ [(1:ℚ), -1/2], |x| ≤ 1 := by
    intro x hx
    simp only [List.mem_cons, List.not_mem_nil, or_false] at hx
    rcases hx with rfl | rfl <;> rw [abs_le] <;> constructor <;> norm_num
  have hh : ∀ y ∈ List.replicate 100 (0:ℚ), |y| ≤ 1 := by
    intro y hy
    rw [List.eq_of_mem_replicate hy]
    norm_num
  exact ⟨⟨by norm_num, by norm_num, le_refl 1, by norm_num, by simp,
      by norm_num, hin, hh⟩,
    comb_bounded_invariant 1 (1/2) 1 [(1:ℚ), -1/2] (List.replicate 100 0) 0
      (by norm_num) (by norm_num) (le_refl 1) (by norm_num) (by simp)
      (by norm_num) hin hh⟩

/-- In exact real arithmetic the argument the Reson kernel passes to
`acos`, namely `(2r/(1+r²))·cos(2πf/R)`, lies in `[-1, 1]` for every
pole radius `r` (hence every frequency/bandwidth combination): by the
arithmetic-geometric mean inequality `|2r| ≤ 1 + r²`.  Any excursion of
the C computation outside `[-1, 1]` is therefore purely a
floating-point rounding artifact. -/
theorem reson_acos_argument_in_unit_interval (freq bw : ℝ) (rate : ℕ) :
    |2 * (1 - Real.pi * bw / (rate : ℝ)) /
        (1 + (1 - Real.pi * bw / (rate : ℝ)) ^ 2) *
      Real.cos (2 * Real.pi * freq / (rate : ℝ))| ≤ 1 := by
  have key : ∀ r : ℝ, |2 * r / (1 + r ^ 2)| ≤ 1 := by
    intro r
    rw [abs_div, abs_of_pos (by positivity : (0:ℝ) < 1 + r ^ 2),
      div_le_one (by positivity)]
    have h2 : 0 ≤ (|r| - 1) ^ 2 := sq_nonneg _
    have h3 : |2 * r| = 2 * |r| := by
      rw [abs_mul, abs_two]
    rw [h3]
    nlinarith [sq_abs r]
  calc |2 * (1 - Real.pi * bw / (rate : ℝ)) /
          (1 + (1 - Real.pi * bw / (rate : ℝ)) ^ 2) *
        Real.cos (2 * Real.pi * freq / (rate : ℝ))|
      = |2 * (1 - Real.pi * bw / (rate : ℝ)) /
          (1 + (1 - Real.pi * bw / (rate : ℝ)) ^ 2)| *
        |Real.cos (2 * Real.pi * freq / (rate : ℝ))| := abs_mul _ _
    _ ≤ 1 * 1 := by
        refine mul_le_mul (key _) (Real.abs_cos_le_one _) (abs_nonneg _)
          (by norm_num)
    _ = 1 := by norm_num

end Ladspa
